import Mathlib

/-!
Verification of `conan_submit.py` (conan-dependency-submission).

Shallow embedding of the transformation pipeline of `conan_submit.py`:
the graph parser (`process_graph`), the tree builder (`build_tree`, with
anytree's parent-assignment semantics), the relationship classifier
(`add_relationship`), the identifier encoder (`make_purl`, with furl's
percent-encoding), the entry encoder (`make_dependency`) and the payload
assembler (`submit_graph`).

Strings are modelled as `List Char`; JSON values from the conan graph as
`JVal`; Python dicts as insertion-ordered association lists (assignment
overwrites in place, new keys append); Python exceptions as `Except PyErr`.
-/

namespace ConanSubmit

/-- Strings, modelled as lists of characters. -/
abbrev Str := List Char

/-- Shorthand turning a Lean string literal into the `Str` model. -/
def str (s : String) : Str := s.data

/-- JSON-ish values occurring in conan's `graph info --format=json` output. -/
inductive JVal where
  | s (v : Str)
  | i (n : Int)
  | b (v : Bool)
  | null
  | obj (fields : List (Str × JVal))

/-- Python exceptions that the parsing code can raise.  `process_graph`
catches `KeyError` only. -/
inductive PyErr where
  | valueError
  | typeError
  | attributeError
  | keyError
  deriving DecidableEq, Repr

/-- Lookup in a Python dict modelled as an association list (`d[k]` /
`d.get(k)`); keys are unique because insertion is via `dinsert`. -/
def dlookup {κ α : Type} [DecidableEq κ] (m : List (κ × α)) (k : κ) : Option α :=
  (m.find? (fun p => decide (p.1 = k))).map (·.2)

/-- Python dict assignment `d[k] = v`: overwrites in place if the key is
present (keeping its position), otherwise appends. -/
def dinsert {κ α : Type} [DecidableEq κ] (m : List (κ × α)) (k : κ) (v : α) :
    List (κ × α) :=
  if m.any (fun p => decide (p.1 = k)) then
    m.map (fun p => if p.1 = k then (k, v) else p)
  else m ++ [(k, v)]

/-- `c ∈ s` on Python strings. -/
def hasChar (s : Str) (c : Char) : Bool := s.any (fun x => decide (x = c))

/-- Membership of a string in a fixed list of keys. -/
def hasKey (l : List Str) (k : Str) : Bool := l.any (fun x => decide (x = k))

/-- Value of a decimal digit. -/
def digitVal (c : Char) : Option Nat :=
  if c.isDigit then some (c.toNat - '0'.toNat) else none

/-- Decimal value of a nonempty all-digit string. -/
def digitsVal : Str → Option Nat
  | [] => none
  | cs => cs.foldl (fun acc c =>
      match acc, digitVal c with
      | some n, some d => some (n * 10 + d)
      | _, _ => none) (some 0)

/-- Python `int(s)` on a string: an optional minus sign followed by digits
(the cases arising from conan's JSON); anything else raises `ValueError`. -/
def strToInt (s : Str) : Except PyErr Int :=
  match s with
  | '-' :: rest =>
    match digitsVal rest with
    | some n => .ok (-(n : Int))
    | none => .error .valueError
  | _ =>
    match digitsVal s with
    | some n => .ok (n : Int)
    | none => .error .valueError

/-- Python `int(x)` on a JSON value: ints pass through, bools coerce,
strings are parsed (`ValueError` on failure), `None`/dicts raise
`TypeError`. -/
def intParse : JVal → Except PyErr Int
  | .i n => .ok n
  | .b true => .ok 1
  | .b false => .ok 0
  | .s v => strToInt v
  | .null => .error .typeError
  | .obj _ => .error .typeError

/-- `JVal.null` test (Python `value is None`). -/
def isNull : JVal → Bool
  | .null => true
  | _ => false

/-- Python `metadata["context"] == "build"`: equality against the string
literal, `False` for any non-string value. -/
def isBuildVal : JVal → Bool
  | .s c => decide (c = str "build")
  | _ => false

/-- Python `str.split(sep)`: all fields, including empty ones. -/
def splitOnChar (sep : Char) : Str → List Str
  | [] => [[]]
  | c :: rest =>
    let r := splitOnChar sep rest
    if c = sep then [] :: r
    else
      match r with
      | h :: t => (c :: h) :: t
      | [] => [[c]]

/-- One parsed conan package (the `Package` attrs class).  `relationship`
is `none` until `add_relationship` runs. -/
structure Package where
  id_ : Int
  name : Str
  version : Option Str
  sha : Option Str
  scope : Option Str
  relationship : Option Str
  metadata : List (Str × JVal)
  dependencies : List Int

/-- The `packages` dict: node index (as int) to `Package`. -/
abbrev PkgMap := List (Int × Package)

/-- `conan_mapped_metadata_keys = {"sha": "rrev"}`. -/
def conan_mapped_metadata_keys : List (Str × Str) := [(str "sha", str "rrev")]

/-- `conan_complex_keys`. -/
def conan_complex_keys : List Str :=
  [str "ref", str "settings", str "cpp_info", str "options_definitions",
   str "default_options", str "options"]

/-- `conan_handled_keys = ("dependencies",)`. -/
def conan_handled_keys : List Str := [str "dependencies"]

/-- `conan_not_ok_keys = ("386",)`. -/
def conan_not_ok_keys : List Str := [str "386"]

/-- Does `hay` start with `needle`? -/
def startsWith : Str → Str → Bool
  | [], _ => true
  | _ :: _, [] => false
  | a :: as, b :: bs => decide (a = b) && startsWith as bs

/-- Python `needle in hay` on strings: substring containment. -/
def isSubstring (needle : Str) : Str → Bool
  | [] => needle.isEmpty
  | c :: rest => startsWith needle (c :: rest) || isSubstring needle rest

/-- `name, remainder = ref.split("/")` then
`version, sha = remainder.split("#")`: each unpacking raises `ValueError`
unless the split yields exactly two parts; a missing separator yields
`None` instead of an error. -/
def refSplit (r : Str) : Except PyErr (Str × Option Str × Option Str) := do
  let (name, remainder) ←
    if hasChar r '/' then
      match splitOnChar '/' r with
      | [a, b] => Except.ok (a, some b)
      | _ => Except.error PyErr.valueError
    else Except.ok (r, none)
  match remainder with
  | some rem =>
    if hasChar rem '#' then
      match splitOnChar '#' rem with
      | [v, s2] => Except.ok (name, some v, some s2)
      | _ => Except.error PyErr.valueError
    else Except.ok (name, some rem, none)
  | none => Except.ok (name, none, none)

/-- Copy non-`None` entries of a nested mapping into `metadata`
(the `settings` / `options` flattening loops). -/
def copyNonNull (m : List (Str × JVal)) (fields : List (Str × JVal)) :
    List (Str × JVal) :=
  fields.foldl (fun acc kv => if isNull kv.2 then acc else dinsert acc kv.1 kv.2) m

/-- The `for key, value in entry.items()` loop: copy every top-level field
that is not in `conan_complex_keys` and is not `None`. -/
def copyScalars (m : List (Str × JVal)) (fields : List (Str × JVal)) :
    List (Str × JVal) :=
  fields.foldl (fun acc kv =>
    if hasKey conan_complex_keys kv.1 || isNull kv.2 then acc
    else dinsert acc kv.1 kv.2) m

/-- `entry["settings"].items()` (resp. `options`): absent key contributes
nothing; a non-dict value raises `AttributeError` at `.items()`. -/
def flattenMaybe (entry : List (Str × JVal)) (key : Str)
    (m : List (Str × JVal)) : Except PyErr (List (Str × JVal)) :=
  match dlookup entry key with
  | none => .ok m
  | some (JVal.obj fs) => .ok (copyNonNull m fs)
  | some _ => .error .attributeError

/-- `[int(id) for id in entry.get("dependencies", {}).keys()]`. -/
def depIndexes (entry : List (Str × JVal)) : Except PyErr (List Int) :=
  match dlookup entry (str "dependencies") with
  | none => .ok []
  | some (JVal.obj fs) => fs.mapM (fun kv => intParse (JVal.s kv.1))
  | some _ => .error .attributeError

/-- `scope = "development" if metadata["context"] == "build" else
"runtime"`, when a `context` key is present. -/
def scopeOf (metadata : List (Str × JVal)) : Option Str :=
  match dlookup metadata (str "context") with
  | some v => some (if isBuildVal v then str "development" else str "runtime")
  | none => none

/-- The body of the `process_graph` loop for one node object: returns
`none` when the node is skipped (missing `id` or `ref`), the parsed
`Package` otherwise, or raises. -/
def processEntry (entry : List (Str × JVal)) : Except PyErr (Option Package) := do
  match dlookup entry (str "id") with
  | none => return none
  | some idv =>
    let id_ ← intParse idv
    match dlookup entry (str "ref") with
    | none => return none
    | some refv =>
      match refv with
      | JVal.s r =>
        let (name, version, sha) ← refSplit r
        let m1 ← flattenMaybe entry (str "settings") []
        let m2 ← flattenMaybe entry (str "options") m1
        let metadata := copyScalars m2 entry
        let scope := scopeOf metadata
        let deps ← depIndexes entry
        return some
          { id_ := id_, name := name, version := version, sha := sha,
            scope := scope, relationship := none,
            metadata := metadata, dependencies := deps }
      | _ => .error PyErr.typeError

/-- One iteration of the `process_graph` loop, including the trailing
`packages[int(index)] = package` and the `except KeyError` handler (the
only exception class that is caught; every other exception propagates and
aborts the whole loop). -/
def processOne (m : PkgMap) (node : Str × JVal) : Except PyErr PkgMap :=
  let res : Except PyErr PkgMap :=
    match node.2 with
    | JVal.obj entry =>
      match processEntry entry with
      | .error e => .error e
      | .ok none => .ok m
      | .ok (some pkg) =>
        match strToInt node.1 with
        | .error e => .error e
        | .ok idx => .ok (dinsert m idx pkg)
    | JVal.s sv =>
      -- `"id" not in entry` on a string is a substring test; if it
      -- succeeds, the subscript `entry["id"]` raises `TypeError`.
      if isSubstring (str "id") sv then .error .typeError else .ok m
    | _ => .error .typeError
  match res with
  | .error PyErr.keyError => .ok m
  | r => r

/-- `process_graph`: fold the loop body over the node map in iteration
order; an uncaught exception aborts the remaining iterations. -/
def processGraph (m : PkgMap) : List (Str × JVal) → Except PyErr PkgMap
  | [] => .ok m
  | n :: rest =>
    match processOne m n with
    | .error e => .error e
    | .ok m' => processGraph m' rest

/-- A node of the anytree tree: the synthetic root `AnyNode(name="packages")`
or the `Package` stored at a node index. -/
inductive NodeRef where
  | root
  | pkg (i : Int)
  deriving DecidableEq, Repr

/-- The tree's parent links: node index to its current parent.  A key is
present exactly when the package at that index has been attached. -/
abbrev PM := List (Int × NodeRef)

/-- One step up the tree (`node.parent`): the synthetic root has no parent,
a package node has its recorded parent if attached. -/
def pstep (pm : PM) : NodeRef → Option NodeRef
  | .root => none
  | .pkg i => dlookup pm i

/-- anytree's loop check `any(child is self for child in
node.iter_path_reverse())`: walk up from `r` and look for `Package` `c`.
The walk is fueled; in any state the builder creates the fuel
`pm.length + 2` is enough to reach the root, and exhaustion is treated as
a detected loop. -/
def pathHas (pm : PM) (c : Int) : NodeRef → Nat → Bool
  | _, 0 => true
  | r, fuel + 1 =>
    if r = NodeRef.pkg c then true
    else
      match pstep pm r with
      | none => false
      | some p => pathHas pm c p fuel

/-- Errors during `build_tree`: anytree's `LoopError`, or model fuel
exhaustion (in Python: unbounded recursion). -/
inductive BErr where
  | loopError
  | fuelOut
  deriving DecidableEq, Repr

/-- anytree's `package.parent = tree` assignment: a no-op when the parent
is unchanged; otherwise run the loop check (raising `LoopError` if the new
parent's path to the root passes through the node being attached) and
re-attach, replacing any previous parent. -/
def attach (pm : PM) (c : Int) (t : NodeRef) : Except BErr PM :=
  if dlookup pm c = some t then .ok pm
  else if pathHas pm c t (pm.length + 2) then .error .loopError
  else .ok (dinsert pm c t)

/-- Sequential traversal of a node's `dependencies` list, threading the
tree state; an exception aborts the remaining children. -/
def buildListWith (step : PM → Int → Except BErr PM) : PM → List Int → Except BErr PM
  | pm, [] => .ok pm
  | pm, i :: rest =>
    match step pm i with
    | .error e => .error e
    | .ok pm' => buildListWith step pm' rest

/-- `build_tree(tree, packages, index)`: look up the record for `index`
(a missing record is logged and the edge dropped), attach it as a child of
`tree`, then recurse into its declared dependency ids.  The recursion is
fueled; Python's recursion is unbounded. -/
def buildTree (packages : PkgMap) : Nat → PM → NodeRef → Int → Except BErr PM
  | 0, _, _, _ => .error .fuelOut
  | fuel + 1, pm, t, index =>
    match dlookup packages index with
    | none => .ok pm
    | some package =>
      match attach pm index t with
      | .error e => .error e
      | .ok pm1 =>
        buildListWith (fun pm' i => buildTree packages fuel pm' (NodeRef.pkg index) i)
          pm1 package.dependencies

/-- `getattr(package.parent, "id_", 0)`: the synthetic root has no `id_`
attribute, so it reads as the sentinel `0`; a package parent contributes
its parsed `id_` field. -/
def parentIdAttr (pkgs : PkgMap) : NodeRef → Int
  | .root => 0
  | .pkg j =>
    match dlookup pkgs j with
    | some q => q.id_
    | none => 0

/-- The label `add_relationship` assigns given the parent node. -/
def relLabel (pkgs : PkgMap) (t : NodeRef) : Str :=
  if parentIdAttr pkgs t = 0 then str "direct" else str "indirect"

/-- `add_relationship`: for every attached package (a descendant of the
synthetic root), set `relationship` to `"direct"` when the parent's id
attribute is the sentinel `0`, else `"indirect"`. -/
def addRelationship (pm : PM) (pkgs : PkgMap) : PkgMap :=
  pkgs.map (fun e =>
    match dlookup pm e.1 with
    | some t => (e.1, { e.2 with relationship := some (relLabel pkgs t) })
    | none => e)

/-- ASCII alphanumeric (never percent-encoded by urllib's `quote`). -/
def isAlnumChar (c : Char) : Bool := c.isAlpha || c.isDigit

/-- Characters `quote` never encodes: alphanumerics and `_.-~`. -/
def alwaysSafe (c : Char) : Bool := isAlnumChar c || hasChar (str "_.-~") c

/-- furl's additional safe characters for path segments. -/
def pathSafeExtra : Str := str ":@!$&'()*+,;="

/-- furl's additional safe characters for query keys and values. -/
def querySafeExtra : Str := str "/?:@!$'()*+,;="

/-- Upper-case hex digit. -/
def hexDigitChar (n : Nat) : Char :=
  if n < 10 then Char.ofNat ('0'.toNat + n) else Char.ofNat ('A'.toNat + n - 10)

/-- Percent-encode one character unless it is safe (ASCII model of furl's
quoting). -/
def pctChar (extra : Str) (c : Char) : Str :=
  if alwaysSafe c || hasChar extra c then [c]
  else ['%', hexDigitChar (c.toNat / 16 % 16), hexDigitChar (c.toNat % 16)]

/-- Percent-encode a string character-wise. -/
def pctStr (extra : Str) (s : Str) : Str :=
  s.foldr (fun c acc => pctChar extra c ++ acc) []

/-- Decimal rendering of an integer (Python `str(int)`). -/
def intToStr (n : Int) : Str :=
  if n < 0 then '-' :: Nat.toDigits 10 n.natAbs else Nat.toDigits 10 n.toNat

/-- Join a list of strings with a separator. -/
def joinSep (sep : Str) : List Str → Str
  | [] => []
  | [x] => x
  | x :: y :: rest => x ++ sep ++ joinSep sep (y :: rest)

/-- Python `repr`, fueled for nested dicts (`fuel` is instantiated with the
size of the value, which bounds its depth). -/
def pyReprF : Nat → JVal → Str
  | _, .i n => intToStr n
  | _, .b true => str "True"
  | _, .b false => str "False"
  | _, .null => str "None"
  | _, .s v => '\'' :: (v ++ ['\''])
  | 0, .obj _ => []
  | fuel + 1, .obj fs =>
    Char.ofNat 123 ::
      (joinSep (str ", ")
        (fs.map (fun kv => pyReprF fuel (.s kv.1) ++ str ": " ++ pyReprF fuel kv.2)) ++
       [Char.ofNat 125])

/-- Python `str()` of a query-parameter value as furl renders it. -/
def jvalToStr : JVal → Str
  | .s v => v
  | .i n => intToStr n
  | .b true => str "True"
  | .b false => str "False"
  | .null => str "None"
  | .obj fs => pyReprF 1000 (.obj fs)

/-- The query dict built by `make_purl` when `dep` is false: every metadata
key not mapped, not handled and not disallowed, then the remapped keys
(`sha` stored under `rrev`). -/
def purlQuery (metadata : List (Str × JVal)) : List (Str × JVal) :=
  let q1 := metadata.foldl (fun acc kv =>
    if !hasKey (conan_mapped_metadata_keys.map (·.1)) kv.1 &&
       !hasKey conan_handled_keys kv.1 &&
       !hasKey conan_not_ok_keys kv.1 then
      dinsert acc kv.1 kv.2
    else acc) []
  conan_mapped_metadata_keys.foldl (fun acc km =>
    match dlookup metadata km.1 with
    | some v => dinsert acc km.2 v
    | none => acc) q1

/-- Serialize the query dict as furl does: `k=v` pairs joined by `&`, keys
and values percent-encoded, values via `str()`. -/
def queryString (q : List (Str × JVal)) : Str :=
  joinSep (str "&") (q.map (fun kv =>
    pctStr querySafeExtra kv.1 ++ ['='] ++ pctStr querySafeExtra (jvalToStr kv.2)))

/-- `f"conan/{package.name}@{package.version}"`: a `None` version renders
as the literal string `None`. -/
def versionField (p : Package) : Str :=
  match p.version with
  | some v => v
  | none => str "None"

/-- `make_purl`: `pkg:` scheme, path `conan/<name>@<version>` (percent-
encoded per segment), and, unless `dep` is set, the metadata query
string. -/
def make_purl (package : Package) (dep : Bool) : Str :=
  let path := pctStr pathSafeExtra (str "conan") ++ ['/'] ++
              pctStr pathSafeExtra (package.name ++ ['@'] ++ versionField package)
  let base := str "pkg:" ++ path
  if dep then base
  else
    match purlQuery package.metadata with
    | [] => base
    | q => base ++ ['?'] ++ queryString q

/-- One entry of the payload's `resolved` map, with its optional fields. -/
structure DepEntry where
  package_url : Str
  dependencies : List Str
  scope : Option Str
  relationship : Option Str
  metadata : Option (List (Str × JVal))

/-- The enumeration order a Python `list(set(...))` uses is determined by
the interpreter's string-hash seed; the model takes it as a parameter.
A valid enumeration returns a duplicate-free list with exactly the
elements of its input. -/
def IsSetEnum (e : List Str → List Str) : Prop :=
  ∀ l, (e l).Nodup ∧ ∀ x, x ∈ e l ↔ x ∈ l

/-- `make_dependency`: package url, the children's dependency purls via
`list({...})`, scope and relationship when set, and the `conan_not_ok_keys`
metadata loop (each present disallowed key resets the mapping to a
singleton). -/
def make_dependency (setEnum : List Str → List Str) (package : Package)
    (children : List Package) : DepEntry :=
  { package_url := make_purl package false,
    dependencies := setEnum (children.map (fun c => make_purl c true)),
    scope := package.scope,
    relationship := package.relationship,
    metadata := conan_not_ok_keys.foldl (fun acc k =>
      match dlookup package.metadata k with
      | some v => some [(k, v)]
      | none => acc) none }

/-- Prefix of a string before the first occurrence of `sep`, and the
remainder after it when found. -/
def splitAtFirst (sep : Char) : Str → Str × Option Str
  | [] => ([], none)
  | c :: rest =>
    if c = sep then ([], some rest)
    else
      let r := splitAtFirst sep rest
      (c :: r.1, r.2)

/-- Remove a leading occurrence of the first argument from the second. -/
def dropStart : Str → Str → Option Str
  | [], s => some s
  | _ :: _, [] => none
  | a :: as, b :: bs => if a = b then dropStart as bs else none

/-- Modelled from the spec: the source ships no purl decoder, so the
decoder for the round-trip claim follows the spec's words — read the
non-metadata portion (drop the query string), expect scheme `pkg` and a
path `conan/<name>@<version>`, and return name and version. -/
def decodePurl (u : Str) : Option (Str × Str) :=
  let base := (splitAtFirst '?' u).1
  match dropStart (str "pkg:conan/") base with
  | none => none
  | some rest =>
    match splitAtFirst '@' rest with
    | (_, none) => none
    | (n, some v) => some (n, v)

/-- `package.children`: the packages currently attached under index `i`. -/
def childPackages (pm : PM) (pkgs : PkgMap) (i : Int) : List Package :=
  ((pm.filter (fun e => decide (e.2 = NodeRef.pkg i))).map (·.1)).filterMap
    (fun j => dlookup pkgs j)

/-- The manifest's `resolved` dict comprehension: one entry per package
name (later packages overwrite earlier ones with the same name), skipping
every package named `conanfile`. -/
def resolvedOf (setEnum : List Str → List Str) (pm : PM) (pkgs : PkgMap) :
    List (Str × DepEntry) :=
  pkgs.foldl (fun acc e =>
    if e.2.name = str "conanfile" then acc
    else dinsert acc e.2.name (make_dependency setEnum e.2 (childPackages pm pkgs e.1))) []

/-- The submission payload assembled by `submit_graph` (the fields of the
JSON body, with the single-manifest map flattened). -/
structure Payload where
  version : Int
  sha : Str
  ref : Str
  jobCorrelator : Str
  jobId : Str
  detectorName : Str
  detectorVersion : Option Str
  detectorUrl : Str
  scanned : Str
  manifestName : Str
  manifestSourceLocation : Str
  resolved : List (Str × DepEntry)

/-- The inputs `submit_graph` draws on: CLI override, environment
variables, git state, the conan graph's node map, external collaborator
results, the per-run fresh values (job id, timestamp) and the set
enumeration order. -/
structure SubmitIn where
  shaOverride : Option Str
  envGithubSha : Option Str
  envGithubRef : Option Str
  envGithubToken : Option Str
  envGhToken : Option Str
  headCommit : Str
  headRef : Option Str
  nodes : List (Str × JVal)
  conanVersion : Option Str
  conanfileName : Str
  conanfileRelPath : Str
  jobId : Str
  scannedTime : Str
  buildFuel : Nat
  setEnum : List Str → List Str

/-- Ways `submit_graph` ends without submitting: missing ref (detached
HEAD and no `GITHUB_REF`), an uncaught parse exception, a tree-building
error, or missing credentials. -/
inductive SubErr where
  | noRef
  | procErr (e : PyErr)
  | buildErr (e : BErr)
  | noToken

/-- `repo_commit`: the `--sha` override, else `GITHUB_SHA`, else the
repository's head commit. -/
def resolveSha (i : SubmitIn) : Str :=
  ((i.shaOverride).orElse (fun _ => i.envGithubSha)).getD i.headCommit

/-- `repo_ref`: `GITHUB_REF`, else `refs/heads/<branch>` from the checked
out head; `none` when the head is detached (GitPython raises `TypeError`,
which `submit_graph` catches and turns into an early return). -/
def resolveRef (i : SubmitIn) : Option Str :=
  i.envGithubRef.orElse (fun _ => i.headRef.map (fun b => str "refs/heads/" ++ b))

/-- `submit_graph` up to the network call: resolve sha and ref, parse the
node map, build the tree, classify relationships, check credentials, then
assemble the payload.  Every error path returns without a payload. -/
def submitGraph (i : SubmitIn) : Except SubErr Payload :=
  match resolveRef i with
  | none => .error .noRef
  | some rref =>
    match processGraph [] i.nodes with
    | .error e => .error (.procErr e)
    | .ok pkgs =>
      match buildTree pkgs i.buildFuel [] .root 0 with
      | .error e => .error (.buildErr e)
      | .ok pm =>
        let pkgs2 := addRelationship pm pkgs
        match (i.envGithubToken).orElse (fun _ => i.envGhToken) with
        | none => .error .noToken
        | some _ =>
          .ok { version := 0, sha := resolveSha i, ref := rref,
                jobCorrelator := str "conan-dependency-submission",
                jobId := i.jobId,
                detectorName := str "conan",
                detectorVersion := i.conanVersion,
                detectorUrl := str "https://conan.io/",
                scanned := i.scannedTime,
                manifestName := i.conanfileName,
                manifestSourceLocation := i.conanfileRelPath,
                resolved := resolvedOf i.setEnum pm pkgs2 }

/-! ### Properties of the tree state -/

/-- One parent step as a relation. -/
def PRel (pm : PM) (a b : NodeRef) : Prop := pstep pm a = some b

/-- No node is reachable from itself in one or more parent steps. -/
def Acyclic (pm : PM) : Prop := ∀ a, ¬ Relation.TransGen (PRel pm) a a

/-- Each key occurs at most once (each attached record has one entry). -/
def NodupKeys {κ α : Type} (m : List (κ × α)) : Prop := (m.map (·.1)).Nodup

/-! ### Similarity of payloads across runs (claim C4) -/

/-- Equality of `resolved` entries up to the order of the dependency
list. -/
def DepSim (d1 d2 : DepEntry) : Prop :=
  d1.package_url = d2.package_url ∧ d1.dependencies.Perm d2.dependencies ∧
  d1.scope = d2.scope ∧ d1.relationship = d2.relationship ∧ d1.metadata = d2.metadata

/-- Pointwise similarity of the `resolved` maps: same keys in the same
order, entries equal up to dependency-list order. -/
def ResolvedSim (r1 r2 : List (Str × DepEntry)) : Prop :=
  List.Forall₂ (fun a b => a.1 = b.1 ∧ DepSim a.2 b.2) r1 r2

/-- Payload equality except for the job id, the scanned timestamp, and
the order inside each dependencies list. -/
def PayloadSim (p q : Payload) : Prop :=
  p.version = q.version ∧ p.sha = q.sha ∧ p.ref = q.ref ∧
  p.jobCorrelator = q.jobCorrelator ∧ p.detectorName = q.detectorName ∧
  p.detectorVersion = q.detectorVersion ∧ p.detectorUrl = q.detectorUrl ∧
  p.manifestName = q.manifestName ∧
  p.manifestSourceLocation = q.manifestSourceLocation ∧
  ResolvedSim p.resolved q.resolved

/-- Characters for which the purl encoding is the identity (unreserved:
alphanumerics and `_ . - ~`); none of them is a structural separator
(`/ @ ? % &`). -/
def plainChar (c : Char) : Bool := alwaysSafe c

/-! ### Concrete fixtures used by the per-claim theorems -/

/-- Test package with the given id, name and dependency ids. -/
def mkPkg (i : Int) (nm : Str) (deps : List Int) : Package :=
  { id_ := i, name := nm, version := none, sha := none, scope := none,
    relationship := none, metadata := [], dependencies := deps }

/-- Diamond lookup table: 0 depends on 1 and 2, which both depend on 3. -/
def pkgsD : PkgMap :=
  [(0, mkPkg 0 (str "conanfile") [1, 2]),
   (1, mkPkg 1 (str "a") [3]),
   (2, mkPkg 2 (str "b") [3]),
   (3, mkPkg 3 (str "c") [])]

/-- Cyclic lookup table: 0 depends on 1, 1 on 2, 2 back on 1. -/
def pkgsC : PkgMap :=
  [(0, mkPkg 0 (str "conanfile") [1]),
   (1, mkPkg 1 (str "a") [2]),
   (2, mkPkg 2 (str "b") [1])]

/-- Tree state after the first (index 1) subtree of the diamond: record 3
is attached to record 1. -/
def pmDmid : PM := [(0, .root), (1, .pkg 0), (3, .pkg 1)]

/-- Final diamond tree state: revisiting record 3 from record 2 moved it
(its entry now maps to parent 2). -/
def pmDfin : PM := [(0, .root), (1, .pkg 0), (3, .pkg 2), (2, .pkg 0)]

/-- The node map of claim C1's graph: node 0 is the conanfile and declares
node 1 (`libA/1.2#abc`) as its dependency. -/
def nodesC1 : List (Str × JVal) :=
  [(str "0", .obj [(str "id", .i 0), (str "ref", .s (str "conanfile")),
                   (str "dependencies", .obj [(str "1", .obj [])])]),
   (str "1", .obj [(str "id", .i 1), (str "ref", .s (str "libA/1.2#abc")),
                   (str "dependencies", .obj [])])]

/-- A complete input for `submit_graph` around claim C1's graph. -/
def inC1 : SubmitIn :=
  { shaOverride := none, envGithubSha := some (str "envsha"),
    envGithubRef := some (str "refs/heads/main"),
    envGithubToken := some (str "tok"), envGhToken := none,
    headCommit := str "headsha", headRef := some (str "main"),
    nodes := nodesC1, conanVersion := some (str "2.0.0"),
    conanfileName := str "conanfile.py", conanfileRelPath := str "conanfile.py",
    jobId := str "job1", scannedTime := str "t0", buildFuel := 10,
    setEnum := fun l => l.dedup }

/-- The payload `submit_graph` actually assembles for claim C1's graph. -/
def payloadC1 : Payload :=
  { version := 0, sha := str "envsha", ref := str "refs/heads/main",
    jobCorrelator := str "conan-dependency-submission",
    jobId := str "job1", detectorName := str "conan",
    detectorVersion := some (str "2.0.0"),
    detectorUrl := str "https://conan.io/", scanned := str "t0",
    manifestName := str "conanfile.py",
    manifestSourceLocation := str "conanfile.py",
    resolved := [(str "libA",
      { package_url := str "pkg:conan/libA@1.2?id=1",
        dependencies := [], scope := none,
        relationship := some (str "direct"), metadata := none })] }

/-- Claim C3's malformed node: its `id` is not parseable as an integer, so
`int(entry["id"])` raises `ValueError`, which the loop does not catch. -/
def badNode : Str × JVal :=
  (str "0", .obj [(str "id", .s (str "x")), (str "ref", .s (str "a/1.0"))])

/-- Claim C3's well-formed sibling node. -/
def goodNode : Str × JVal :=
  (str "1", .obj [(str "id", .i 1), (str "ref", .s (str "b/2.0"))])

/-- The package `goodNode` parses to when it is reached. -/
def goodPkg : Package :=
  { id_ := 1, name := str "b", version := some (str "2.0"), sha := none,
    scope := none, relationship := none, metadata := [(str "id", JVal.i 1)],
    dependencies := [] }

/-- Claim C4's graph: `libA/1.0` has two dependencies, so its encoded
dependencies list has two elements whose order comes from a set. -/
def nodesC4 : List (Str × JVal) :=
  [(str "0", .obj [(str "id", .i 0), (str "ref", .s (str "conanfile")),
                   (str "dependencies", .obj [(str "1", .obj [])])]),
   (str "1", .obj [(str "id", .i 1), (str "ref", .s (str "libA/1.0")),
                   (str "dependencies", .obj [(str "2", .obj []), (str "3", .obj [])])]),
   (str "2", .obj [(str "id", .i 2), (str "ref", .s (str "libB/1.1")),
                   (str "dependencies", .obj [])]),
   (str "3", .obj [(str "id", .i 3), (str "ref", .s (str "libC/2.2")),
                   (str "dependencies", .obj [])])]

/-- One run over claim C4's graph (set order: first occurrence). -/
def inC4A : SubmitIn := { inC1 with nodes := nodesC4, setEnum := fun l => l.dedup }

/-- A second run identical except for the set enumeration order. -/
def inC4B : SubmitIn :=
  { inC1 with nodes := nodesC4, setEnum := fun l => l.dedup.reverse }

/-- Job id of a `submit_graph` result, when one was produced. -/
def jobIdOf : Except SubErr Payload → Option Str
  | .ok p => some p.jobId
  | .error _ => none

/-- Scanned timestamp of a `submit_graph` result. -/
def scannedOf : Except SubErr Payload → Option Str
  | .ok p => some p.scanned
  | .error _ => none

/-- Dependencies list of one `resolved` entry of a result. -/
def resolvedDeps (r : Except SubErr Payload) (nm : Str) : Option (List Str)
  := match r with
  | .ok p => (dlookup p.resolved nm).map (·.dependencies)
  | .error _ => none

/-- Claim C5's counterexample node: its `ref` is `a@b/1.0`, so the parsed
name itself contains `@`. -/
def nodeAtB : Str × JVal :=
  (str "1", .obj [(str "id", .i 1), (str "ref", .s (str "a@b/1.0"))])

/-- The package `nodeAtB` parses to. -/
def pkgAtB : Package :=
  { id_ := 1, name := str "a@b", version := some (str "1.0"), sha := none,
    scope := none, relationship := none, metadata := [(str "id", JVal.i 1)],
    dependencies := [] }

/-- A record with plain name and version, for the round-trip witness. -/
def pkgPlain : Package :=
  { id_ := 7, name := str "libA", version := some (str "1.2"), sha := none,
    scope := none, relationship := none, metadata := [(str "id", JVal.i 7)],
    dependencies := [] }

/-- Claim C8's witness entry: the `ref` contains neither `/` nor `#`. -/
def entryC8 : List (Str × JVal) :=
  [(str "id", JVal.i 1), (str "ref", JVal.s (str "libX"))]

/-- A detached-checkout variant of claim C1's input: no `GITHUB_REF` and
no current branch. -/
def inDet : SubmitIn := { inC1 with envGithubRef := none, headRef := none }

/-- A node whose required keys are absent-or-an-object where needed: the
well-formedness assumption of claim C8 (under which nothing but the `ref`
splitting could raise). -/
def IsObjOrAbsent (entry : List (Str × JVal)) (key : Str) : Prop :=
  ∀ v, dlookup entry key = some v → ∃ fs, v = JVal.obj fs

/-- Duplicate-name lookup table for claim C10's witness: two records named
`x` (the later one at a different version) plus the conanfile record. -/
def pkgsDup : PkgMap :=
  [(0, mkPkg 0 (str "conanfile") [1, 2]),
   (1, { mkPkg 1 (str "x") [] with version := some (str "1.0") }),
   (2, { mkPkg 2 (str "x") [] with version := some (str "2.0") })]

/-- Record 3 of the diamond after classification: its parent is record 2
(id 2, not the sentinel), so it is labelled indirect. -/
def p3rel : Package := { mkPkg 3 (str "c") [] with relationship := some (str "indirect") }

/-- The payload of claim C4's witness run (empty graph). -/
def payloadW : Payload :=
  { version := 0, sha := str "s", ref := str "r",
    jobCorrelator := str "conan-dependency-submission", jobId := str "j",
    detectorName := str "conan", detectorVersion := none,
    detectorUrl := str "https://conan.io/", scanned := str "t0",
    manifestName := str "cf", manifestSourceLocation := str "cf",
    resolved := [] }

/-! ## Theorems -/

/-- Claim C1, counterexample.  On the claimed graph (node 0 the conanfile
declaring node 1 `libA/1.2#abc` as a dependency) the assembled payload's
`resolved` map does contain exactly one entry keyed `libA`, but its
package url is `pkg:conan/libA@1.2?id=1`, not the claimed
`pkg:conan/libA@1.2?rrev=abc`: `make_purl` maps a metadata key `sha` to
`rrev`, yet the revision parsed from the ref is stored in the record's
`sha` attribute and never in its metadata, while the node's scalar `id`
field does flow into the query string. -/
theorem claim_C1_counterexample :
    submitGraph inC1 = .ok payloadC1 ∧
    payloadC1.resolved.map (·.1) = [str "libA"] ∧
    (dlookup payloadC1.resolved (str "libA")).map (·.package_url) ≠
      some (str "pkg:conan/libA@1.2?rrev=abc") :=
  ⟨rfl, rfl, by decide⟩

/-- Claim C1, amended.  For the input graph in which node 0 (`conanfile`)
declares node 1 (`libA/1.2#abc`) as a dependency, the assembled payload's
manifest `resolved` map contains exactly one entry, keyed `libA`, whose
package url is `pkg:conan/libA@1.2?id=1` (the ref's revision is not
encoded, because only a metadata key named `sha` is remapped to `rrev` and
the parsed revision lives in the record's `sha` attribute instead), whose
relationship is `direct`, and whose dependencies list is empty. -/
theorem claim_C1 :
    submitGraph inC1 = .ok payloadC1 ∧
    payloadC1.resolved = [(str "libA",
      { package_url := str "pkg:conan/libA@1.2?id=1",
        dependencies := [], scope := none,
        relationship := some (str "direct"), metadata := none })] :=
  ⟨rfl, rfl⟩

/-- Claim C3.  The code means to contain per-node parse failures (the loop
body sits in a `try` whose handler logs and moves on), but the handler
catches only `KeyError`, while the malformed nodes the claim describes (a
non-integer `id`, a ref whose splitting fails) raise `ValueError`: on a
graph whose first node has `id` `"x"`, parsing aborts with an uncaught
`ValueError` and the well-formed sibling node is never parsed, even though
that sibling parses fine on its own. -/
theorem claim_C3 :
    processGraph [] [badNode, goodNode] = .error PyErr.valueError ∧
    processOne [] badNode = .error PyErr.valueError ∧
    processGraph [] [goodNode] = .ok [(1, goodPkg)] :=
  ⟨rfl, rfl, rfl⟩

/-- Claim C2, counterexample.  Re-visiting an already-attached record is
not a no-op: in the diamond graph (0 depends on 1 and 2, both of which
depend on 3), the walk of record 1's subtree attaches record 3 to
record 1, and the later walk of record 2's subtree re-attaches record 3 to
record 2 — the final tree has record 3 under parent 2, so the second visit
changed the tree and attachment is not from the first successful lookup
only. -/
theorem claim_C2_counterexample :
    buildTree pkgsD 10 [] .root 0 = .ok pmDfin ∧
    buildTree pkgsD 9 [(0, NodeRef.root)] (.pkg 0) 1 = .ok pmDmid ∧
    buildTree pkgsD 9 pmDmid (.pkg 0) 2 = .ok pmDfin ∧
    dlookup pmDmid 3 = some (.pkg 1) ∧
    dlookup pmDfin 3 = some (.pkg 2) ∧
    NodeRef.pkg 2 ≠ NodeRef.pkg 1 :=
  ⟨rfl, rfl, rfl, rfl, rfl, by decide⟩

/-! ### Association-list (Python dict) lemmas -/

theorem dlookup_cons {κ α : Type} [DecidableEq κ] (a : κ × α) (m : List (κ × α)) (k : κ) :
    dlookup (a :: m) k = if a.1 = k then some a.2 else dlookup m k := by
  by_cases h : a.1 = k <;> simp [dlookup, List.find?_cons, h]

theorem dlookup_of_not_any {κ α : Type} [DecidableEq κ] {m : List (κ × α)} {k : κ}
    (h : m.any (fun p => decide (p.1 = k)) = false) : dlookup m k = none := by
  unfold dlookup
  rw [List.find?_eq_none.mpr]
  · rfl
  · intro x hx hpx
    have : m.any (fun p => decide (p.1 = k)) = true :=
      List.any_eq_true.mpr ⟨x, hx, hpx⟩
    rw [h] at this
    exact Bool.false_ne_true this

theorem dlookup_map_overwrite_ne {κ α : Type} [DecidableEq κ]
    (m : List (κ × α)) (k x : κ) (v : α) (hxk : x ≠ k) :
    dlookup (m.map (fun p => if p.1 = k then (k, v) else p)) x = dlookup m x := by
  induction m with
  | nil => rfl
  | cons a rest ih =>
    by_cases hak : a.1 = k
    · have h1 : (if a.1 = k then (k, v) else a) = (k, v) := if_pos hak
      rw [List.map_cons, h1, dlookup_cons, dlookup_cons, ih]
      have hk : ¬ ((k, v).1 = x) := fun h => hxk h.symm
      have ha : ¬ (a.1 = x) := fun h => hxk (hak ▸ h).symm
      rw [if_neg hk, if_neg ha]
    · have h1 : (if a.1 = k then (k, v) else a) = a := if_neg hak
      rw [List.map_cons, h1, dlookup_cons, dlookup_cons, ih]

theorem dlookup_map_overwrite_eq {κ α : Type} [DecidableEq κ]
    (m : List (κ × α)) (k : κ) (v : α)
    (h : m.any (fun p => decide (p.1 = k)) = true) :
    dlookup (m.map (fun p => if p.1 = k then (k, v) else p)) k = some v := by
  induction m with
  | nil => simp at h
  | cons a rest ih =>
    by_cases hak : a.1 = k
    · have h1 : (if a.1 = k then (k, v) else a) = (k, v) := if_pos hak
      rw [List.map_cons, h1, dlookup_cons, if_pos rfl]
    · have h1 : (if a.1 = k then (k, v) else a) = a := if_neg hak
      have h2 : rest.any (fun p => decide (p.1 = k)) = true := by
        rcases List.any_eq_true.mp h with ⟨x, hx, hpx⟩
        cases hx with
        | head => exact absurd (of_decide_eq_true hpx) hak
        | tail _ hx => exact List.any_eq_true.mpr ⟨x, hx, hpx⟩
      rw [List.map_cons, h1, dlookup_cons, if_neg hak, ih h2]

/-- Lookup after a Python dict assignment. -/
theorem dlookup_dinsert {κ α : Type} [DecidableEq κ] (m : List (κ × α)) (k x : κ) (v : α) :
    dlookup (dinsert m k v) x = if x = k then some v else dlookup m x := by
  by_cases hany : m.any (fun p => decide (p.1 = k)) = true
  · rw [dinsert, if_pos hany]
    by_cases hxk : x = k
    · subst hxk
      rw [if_pos rfl, dlookup_map_overwrite_eq m x v hany]
    · rw [if_neg hxk, dlookup_map_overwrite_ne m k x v hxk]
  · have hany' : m.any (fun p => decide (p.1 = k)) = false :=
      Bool.eq_false_iff.mpr hany
    rw [dinsert, if_neg hany]
    unfold dlookup
    rw [List.find?_append]
    by_cases hxk : x = k
    · subst hxk
      have : List.find? (fun p => decide (p.1 = x)) m = none := by
        have := dlookup_of_not_any (m := m) (k := x) hany'
        unfold dlookup at this
        exact Option.map_eq_none'.mp this
      rw [this]
      simp [List.find?_cons]
    · have hkx : ¬ ((k, v).1 = x) := fun h => hxk h.symm
      have : List.find? (fun p => decide (p.1 = x)) [(k, v)] = none := by
        simp [List.find?_cons, hkx]
      rw [this, if_neg hxk]
      cases hf : List.find? (fun p => decide (p.1 = x)) m <;> simp [dlookup, hf]

/-- A Python dict assignment does not change the key sequence when the
key is already present, and appends the key otherwise. -/
theorem keys_dinsert {κ α : Type} [DecidableEq κ] (m : List (κ × α)) (k : κ) (v : α) :
    (dinsert m k v).map (·.1) =
      if m.any (fun p => decide (p.1 = k)) then m.map (·.1)
      else m.map (·.1) ++ [k] := by
  by_cases hany : m.any (fun p => decide (p.1 = k)) = true
  · rw [dinsert, if_pos hany, if_pos hany, List.map_map]
    refine List.map_congr_left (fun p _ => ?_)
    by_cases hp : p.1 = k
    · simp [Function.comp, hp]
    · simp [Function.comp, hp]
  · rw [dinsert, if_neg hany, if_neg hany, List.map_append]
    rfl

theorem nodupKeys_dinsert {κ α : Type} [DecidableEq κ] {m : List (κ × α)} (k : κ) (v : α)
    (h : NodupKeys m) : NodupKeys (dinsert m k v) := by
  unfold NodupKeys at h ⊢
  rw [keys_dinsert]
  by_cases hany : m.any (fun p => decide (p.1 = k)) = true
  · rw [if_pos hany]; exact h
  · rw [if_neg hany]
    have hnot : k ∉ m.map (·.1) := by
      intro hk
      rcases List.mem_map.mp hk with ⟨p, hp, hpk⟩
      have : m.any (fun x => decide (x.1 = k)) = true :=
        List.any_eq_true.mpr ⟨p, hp, decide_eq_true hpk⟩
      exact hany this
    rw [List.nodup_append]
    refine ⟨h, List.nodup_singleton k, ?_⟩
    intro x hx hx1
    rw [List.mem_singleton] at hx1
    subst hx1
    exact hnot hx

/-- Effect of a parent (re)assignment on the parent-step function. -/
theorem pstep_dinsert (pm : PM) (c : Int) (t : NodeRef) (r : NodeRef) :
    pstep (dinsert pm c t) r = if r = .pkg c then some t else pstep pm r := by
  cases r with
  | root => simp [pstep]
  | pkg i =>
    rw [pstep, dlookup_dinsert]
    by_cases h : i = c
    · subst h; simp [pstep]
    · have hne : NodeRef.pkg i ≠ NodeRef.pkg c := by
        intro hh
        cases hh
        exact h rfl
      rw [if_neg h, if_neg hne]
      rfl

/-! ### Acyclicity of the constructed tree (claim C2) -/

/-- When anytree's loop check comes back clean there really is no parent
path from the prospective parent to the node being attached. -/
theorem pathHas_sound (pm : PM) (c : Int) :
    ∀ (fuel : Nat) (r : NodeRef), pathHas pm c r fuel = false →
      ¬ Relation.ReflTransGen (PRel pm) r (NodeRef.pkg c) := by
  intro fuel
  induction fuel with
  | zero =>
    intro r h
    simp [pathHas] at h
  | succ f ih =>
    intro r h hr
    by_cases hrc : r = NodeRef.pkg c
    · rw [pathHas, if_pos hrc] at h
      exact Bool.noConfusion h
    · rw [pathHas, if_neg hrc] at h
      rcases Relation.ReflTransGen.cases_head hr with heq | ⟨m, hstep, hrest⟩
      · exact hrc heq
      · have hm : pstep pm r = some m := hstep
        rw [hm] at h
        exact ih m h hrest

/-- In a deterministic parent graph, any point on a path out of a cycle
node can walk back to it. -/
theorem cycle_reach_back (pm : PM) {a b : NodeRef}
    (hab : Relation.ReflTransGen (PRel pm) a b) :
    Relation.TransGen (PRel pm) a a → Relation.ReflTransGen (PRel pm) b a := by
  induction hab using Relation.ReflTransGen.head_induction_on with
  | refl => intro _; exact Relation.ReflTransGen.refl
  | @head x y hstep _ ih =>
    intro hcyc
    rcases Relation.TransGen.head'_iff.mp hcyc with ⟨d, hd, hda⟩
    have hdy : d = y := by
      have h1 : some y = some d := hstep ▸ hd
      exact (Option.some.inj h1).symm
    rw [hdy] at hda
    have hcyc' : Relation.TransGen (PRel pm) y y :=
      Relation.TransGen.tail' hda hstep
    exact (ih hcyc').trans hda

/-- A path to the attached node in the updated tree never needs the new
edge (the new edge leaves that node), so it already existed. -/
theorem rtg_drop_new_edge (pm : PM) (c : Int) (t : NodeRef) :
    ∀ x : NodeRef, Relation.ReflTransGen (PRel (dinsert pm c t)) x (NodeRef.pkg c) →
      Relation.ReflTransGen (PRel pm) x (NodeRef.pkg c) := by
  intro x hx
  induction hx using Relation.ReflTransGen.head_induction_on with
  | refl => exact Relation.ReflTransGen.refl
  | @head a' b' hstep _ ih =>
    by_cases hc : a' = NodeRef.pkg c
    · rw [hc]
    · have hstep' : PRel pm a' b' := by
        have h1 : pstep (dinsert pm c t) a' = some b' := hstep
        rwa [pstep_dinsert, if_neg hc] at h1
      exact Relation.ReflTransGen.head hstep' ih

/-- A path in the updated tree that stays away from the attached node is a
path of the original tree. -/
theorem rtg_no_c (pm : PM) (c : Int) (t : NodeRef) :
    ∀ s e : NodeRef, Relation.ReflTransGen (PRel (dinsert pm c t)) s e →
      ¬ Relation.ReflTransGen (PRel (dinsert pm c t)) s (NodeRef.pkg c) →
      Relation.ReflTransGen (PRel pm) s e := by
  intro s e hse
  induction hse using Relation.ReflTransGen.head_induction_on with
  | refl => intro _; exact Relation.ReflTransGen.refl
  | @head a' b' hstep hrest ih =>
    intro hns
    have hac : a' ≠ NodeRef.pkg c := by
      intro h
      exact hns (by rw [h])
    have hstep' : PRel pm a' b' := by
      have h1 : pstep (dinsert pm c t) a' = some b' := hstep
      rwa [pstep_dinsert, if_neg hac] at h1
    have hnb : ¬ Relation.ReflTransGen (PRel (dinsert pm c t)) b' (NodeRef.pkg c) :=
      fun h => hns (Relation.ReflTransGen.head hstep h)
    exact Relation.ReflTransGen.head hstep' (ih hnb)

/-- A guarded re-attachment keeps the parent links acyclic: the cases of a
would-be cycle either avoid the moved node (so the cycle was already
there) or pass through its new edge (so the guard's path existed). -/
theorem acyclic_dinsert (pm : PM) (c : Int) (t : NodeRef)
    (hac : Acyclic pm)
    (hguard : ¬ Relation.ReflTransGen (PRel pm) t (NodeRef.pkg c)) :
    Acyclic (dinsert pm c t) := by
  intro a hcyc
  by_cases hreach : Relation.ReflTransGen (PRel (dinsert pm c t)) a (NodeRef.pkg c)
  · have h1 : Relation.ReflTransGen (PRel (dinsert pm c t)) (NodeRef.pkg c) a :=
      cycle_reach_back _ hreach hcyc
    have h2 : Relation.TransGen (PRel (dinsert pm c t)) (NodeRef.pkg c) (NodeRef.pkg c) :=
      Relation.TransGen.trans_left (Relation.TransGen.trans_right h1 hcyc) hreach
    rcases Relation.TransGen.head'_iff.mp h2 with ⟨d, hd, hdc⟩
    have hstep : pstep (dinsert pm c t) (NodeRef.pkg c) = some t := by
      rw [pstep_dinsert, if_pos rfl]
    have hdt : d = t := by
      have h3 : some t = some d := hstep ▸ hd
      exact (Option.some.inj h3).symm
    rw [hdt] at hdc
    exact hguard (rtg_drop_new_edge pm c t t hdc)
  · rcases Relation.TransGen.head'_iff.mp hcyc with ⟨d, hd, hda⟩
    have hanc : a ≠ NodeRef.pkg c := by
      intro h
      exact hreach (by rw [h])
    have hd' : PRel pm a d := by
      have h1 : pstep (dinsert pm c t) a = some d := hd
      rwa [pstep_dinsert, if_neg hanc] at h1
    have hnd : ¬ Relation.ReflTransGen (PRel (dinsert pm c t)) d (NodeRef.pkg c) :=
      fun h => hreach (Relation.ReflTransGen.head hd h)
    have hda' : Relation.ReflTransGen (PRel pm) d a := rtg_no_c pm c t d a hda hnd
    exact hac a (Relation.TransGen.head' hd' hda')

/-- One anytree parent assignment preserves acyclicity and key uniqueness
of the parent map. -/
theorem attach_preserves {pm pm' : PM} {c : Int} {t : NodeRef}
    (h : attach pm c t = .ok pm') (hac : Acyclic pm) (hnd : NodupKeys pm) :
    Acyclic pm' ∧ NodupKeys pm' := by
  unfold attach at h
  by_cases h1 : dlookup pm c = some t
  · rw [if_pos h1] at h
    cases h
    exact ⟨hac, hnd⟩
  · rw [if_neg h1] at h
    by_cases h2 : pathHas pm c t (pm.length + 2) = true
    · rw [if_pos h2] at h
      cases h
    · rw [if_neg h2] at h
      cases h
      have hfalse : pathHas pm c t (pm.length + 2) = false := Bool.eq_false_iff.mpr h2
      exact ⟨acyclic_dinsert pm c t hac (pathHas_sound pm c _ t hfalse),
             nodupKeys_dinsert c t hnd⟩

/-- Folding a preserving step over a dependency list preserves the
invariant. -/
theorem buildListWith_preserves {step : PM → Int → Except BErr PM}
    (hstep : ∀ pm i pm', Acyclic pm → NodupKeys pm → step pm i = .ok pm' →
      Acyclic pm' ∧ NodupKeys pm') :
    ∀ (l : List Int) (pm pm' : PM), Acyclic pm → NodupKeys pm →
      buildListWith step pm l = .ok pm' → Acyclic pm' ∧ NodupKeys pm' := by
  intro l
  induction l with
  | nil =>
    intro pm pm' hac hnd h
    cases h
    exact ⟨hac, hnd⟩
  | cons i rest ih =>
    intro pm pm' hac hnd h
    rw [buildListWith] at h
    cases hs : step pm i with
    | error e => rw [hs] at h; cases h
    | ok pm1 =>
      rw [hs] at h
      rcases hstep pm i pm1 hac hnd hs with ⟨hac1, hnd1⟩
      exact ih pm1 pm' hac1 hnd1 h

/-- Whatever `build_tree` returns is still an acyclic parent map in which
each attached record has exactly one entry. -/
theorem buildTree_preserves (packages : PkgMap) :
    ∀ (fuel : Nat) (pm : PM) (t : NodeRef) (i : Int) (pm' : PM),
      Acyclic pm → NodupKeys pm → buildTree packages fuel pm t i = .ok pm' →
      Acyclic pm' ∧ NodupKeys pm' := by
  intro fuel
  induction fuel with
  | zero =>
    intro pm t i pm' _ _ h
    cases h
  | succ f ih =>
    intro pm t i pm' hac hnd h
    rw [buildTree] at h
    cases hl : dlookup packages i with
    | none =>
      rw [hl] at h
      cases h
      exact ⟨hac, hnd⟩
    | some package =>
      rw [hl] at h
      cases hat : attach pm i t with
      | error e => rw [hat] at h; cases h
      | ok pm1 =>
        rw [hat] at h
        rcases attach_preserves hat hac hnd with ⟨hac1, hnd1⟩
        exact buildListWith_preserves
          (fun pm2 j pm3 a b hc => ih pm2 (NodeRef.pkg i) j pm3 a b hc)
          package.dependencies pm1 pm' hac1 hnd1 h

/-- The empty parent map is acyclic. -/
theorem acyclic_nil : Acyclic ([] : PM) := by
  intro a h
  rcases Relation.TransGen.head'_iff.mp h with ⟨d, hd, _⟩
  cases a with
  | root => exact Option.noConfusion hd
  | pkg i => exact Option.noConfusion hd

/-- The empty parent map has no duplicate keys. -/
theorem nodupKeys_nil {κ α : Type} : NodupKeys ([] : List (κ × α)) := List.nodup_nil

/-- Claim C2, amended.  Tree construction keeps the parent links a forest:
whenever `build_tree` returns a tree (from any acyclic, duplicate-free
state), the resulting parent map is acyclic and has exactly one entry per
attached record.  However, re-visiting an already-attached record is not a
no-op: the record is re-attached to the later parent (in the diamond run,
record 3 ends under parent 2 although it was first attached under 1), and
an input whose dependency ids form a cycle reachable from the root makes
construction abort with anytree's `LoopError` instead of completing. -/
theorem claim_C2 :
    (∀ (packages : PkgMap) (fuel : Nat) (pm : PM) (t : NodeRef) (i : Int) (pm' : PM),
      Acyclic pm → NodupKeys pm → buildTree packages fuel pm t i = .ok pm' →
      Acyclic pm' ∧ NodupKeys pm') ∧
    dlookup pmDfin 3 = some (.pkg 2) ∧
    buildTree pkgsC 10 [] .root 0 = .error .loopError :=
  ⟨fun packages fuel pm t i pm' => buildTree_preserves packages fuel pm t i pm',
   rfl, rfl⟩

/-- Claim C2, witness: the invariant applied to the concrete diamond run,
whose hypotheses (empty state, ample fuel) hold by computation. -/
theorem claim_C2_witness : Acyclic pmDfin ∧ NodupKeys pmDfin :=
  claim_C2.1 pkgsD 10 [] .root 0 pmDfin acyclic_nil nodupKeys_nil rfl

/-! ### Relationship classification (claim C6) -/

/-- Lookup through a map whose function preserves keys. -/
theorem dlookup_map_keyfix {κ α β : Type} [DecidableEq κ]
    (g : κ × α → κ × β) (hg : ∀ e, (g e).1 = e.1) (m : List (κ × α)) (k : κ) :
    dlookup (m.map g) k =
      (m.find? (fun p => decide (p.1 = k))).map (fun e => (g e).2) := by
  induction m with
  | nil => rfl
  | cons a rest ih =>
    rw [List.map_cons, dlookup_cons, List.find?_cons]
    by_cases h : a.1 = k
    · have h1 : (g a).1 = k := (hg a).trans h
      rw [if_pos h1, decide_eq_true h]
      rfl
    · have h1 : (g a).1 ≠ k := fun hh => h ((hg a).symm.trans hh)
      rw [if_neg h1, decide_eq_false h]
      exact ih

/-- What `add_relationship` does to one record of the lookup table. -/
theorem dlookup_addRelationship (pm : PM) (pkgs : PkgMap) (i : Int) :
    dlookup (addRelationship pm pkgs) i =
      (dlookup pkgs i).map (fun p =>
        match dlookup pm i with
        | some t => { p with relationship := some (relLabel pkgs t) }
        | none => p) := by
  unfold addRelationship
  rw [dlookup_map_keyfix _ (fun e => by cases h : dlookup pm e.1 <;> simp [h]) pkgs i]
  cases hf : pkgs.find? (fun p => decide (p.1 = i)) with
  | none => simp [dlookup, hf]
  | some e =>
    have hpe := List.find?_some hf
    have he : e.1 = i := by simpa using hpe
    have hd : dlookup pkgs i = some e.2 := by simp [dlookup, hf]
    rw [hd]
    simp only [Option.map_some']
    rw [he]
    cases dlookup pm i <;> rfl

/-- Classification does not change the id attribute a parent contributes. -/
theorem parentIdAttr_addRelationship (pm : PM) (pkgs : PkgMap) (t : NodeRef) :
    parentIdAttr (addRelationship pm pkgs) t = parentIdAttr pkgs t := by
  cases t with
  | root => rfl
  | pkg j =>
    simp only [parentIdAttr]
    rw [dlookup_addRelationship]
    cases dlookup pkgs j with
    | none => rfl
    | some p => cases dlookup pm j <;> rfl

/-- Re-running the classifier computes the same labels. -/
theorem relLabel_addRelationship (pm : PM) (pkgs : PkgMap) (t : NodeRef) :
    relLabel (addRelationship pm pkgs) t = relLabel pkgs t := by
  unfold relLabel
  rw [parentIdAttr_addRelationship]

/-- Claim C6.  After `add_relationship` runs, every record attached in the
tree carries exactly one of the two labels, and the label is `direct`
exactly when its parent's id attribute is the root sentinel `0` (the
synthetic root has no id attribute and reads as `0`); re-running the
classification changes nothing. -/
theorem claim_C6 (pm : PM) (pkgs : PkgMap) :
    (∀ (i : Int) (p : Package) (t : NodeRef),
      dlookup pm i = some t → dlookup (addRelationship pm pkgs) i = some p →
      (p.relationship = some (str "direct") ∨ p.relationship = some (str "indirect")) ∧
      (p.relationship = some (str "direct") ↔ parentIdAttr pkgs t = 0)) ∧
    addRelationship pm (addRelationship pm pkgs) = addRelationship pm pkgs := by
  constructor
  · intro i p t hpm hp
    rw [dlookup_addRelationship, hpm] at hp
    cases hq : dlookup pkgs i with
    | none => rw [hq] at hp; cases hp
    | some q =>
      rw [hq] at hp
      have hp' := Option.some.inj hp
      dsimp only at hp'
      by_cases hz : parentIdAttr pkgs t = 0
      · have hl : relLabel pkgs t = str "direct" := by rw [relLabel, if_pos hz]
        rw [hl] at hp'
        rw [← hp']
        exact ⟨Or.inl rfl, by simp [hz]⟩
      · have hl : relLabel pkgs t = str "indirect" := by rw [relLabel, if_neg hz]
        rw [hl] at hp'
        rw [← hp']
        refine ⟨Or.inr rfl, ?_⟩
        constructor
        · intro h
          exact absurd (Option.some.inj h) (by decide)
        · intro h
          exact absurd h hz
  · conv_lhs => rw [addRelationship]
    simp only [relLabel_addRelationship]
    conv_lhs => rw [addRelationship]
    rw [List.map_map]
    conv_rhs => rw [addRelationship]
    refine List.map_congr_left (fun e _ => ?_)
    rcases e with ⟨k, p⟩
    cases hpm : dlookup pm k with
    | none => simp [Function.comp, hpm]
    | some t =>
      cases p
      simp [Function.comp, hpm]

/-- Claim C6, witness: record 3 of the classified diamond is labelled, and
labelled `indirect` because its parent (record 2) has id 2, not 0. -/
theorem claim_C6_witness :
    (p3rel.relationship = some (str "direct") ∨
      p3rel.relationship = some (str "indirect")) ∧
    (p3rel.relationship = some (str "direct") ↔ parentIdAttr pkgsD (.pkg 2) = 0) :=
  (claim_C6 pmDfin pkgsD).1 3 p3rel (.pkg 2) rfl rfl

/-! ### Metadata budget (claim C7) -/

/-- Claim C7.  The metadata mapping `make_dependency` attaches to an entry
has at most one field — below the remote service's documented ceiling of 8
metadata properties per dependency — and it is exactly the restriction of
the record's metadata to the explicit `conan_not_ok_keys` subset: either no
disallowed key is present and no metadata is attached, or the mapping is
the singleton for a present disallowed key, never a partial encoding of
the rest. -/
theorem claim_C7 (setEnum : List Str → List Str) (p : Package) (children : List Package) :
    ((make_dependency setEnum p children).metadata.elim 0 List.length ≤ 8) ∧
    (((make_dependency setEnum p children).metadata = none ∧
        ∀ k, k ∈ conan_not_ok_keys → dlookup p.metadata k = none) ∨
      ∃ k v, k ∈ conan_not_ok_keys ∧ dlookup p.metadata k = some v ∧
        (make_dependency setEnum p children).metadata = some [(k, v)]) := by
  cases h : dlookup p.metadata (str "386") with
  | none =>
    have hm : (make_dependency setEnum p children).metadata = none := by
      simp [make_dependency, conan_not_ok_keys, h]
    refine ⟨by simp [hm], Or.inl ⟨hm, ?_⟩⟩
    intro k hk
    have : k = str "386" := by simpa [conan_not_ok_keys] using hk
    rw [this]
    exact h
  | some v =>
    have hm : (make_dependency setEnum p children).metadata = some [(str "386", v)] := by
      simp [make_dependency, conan_not_ok_keys, h]
    refine ⟨by simp [hm], Or.inr ⟨str "386", v, ?_, h, hm⟩⟩
    simp [conan_not_ok_keys]

/-! ### The resolved map is keyed by name alone (claim C10) -/

/-- Lookup through the `resolved` dict comprehension: the last package with
a given (non-conanfile) name wins, falling back to the accumulator. -/
theorem resolved_fold_lookup (setEnum : List Str → List Str) (pm : PM) (pkgs : PkgMap)
    (nm : Str) (hnm : nm ≠ str "conanfile") :
    ∀ (l : List (Int × Package)) (acc : List (Str × DepEntry)),
      dlookup (l.foldl (fun acc e =>
          if e.2.name = str "conanfile" then acc
          else dinsert acc e.2.name
            (make_dependency setEnum e.2 (childPackages pm pkgs e.1))) acc) nm =
        (match (l.filter (fun e => decide (e.2.name = nm))).getLast? with
         | some e => some (make_dependency setEnum e.2 (childPackages pm pkgs e.1))
         | none => dlookup acc nm) := by
  intro l
  induction l with
  | nil => intro acc; rfl
  | cons e rest ih =>
    intro acc
    rw [List.foldl_cons, List.filter_cons]
    by_cases hc : e.2.name = str "conanfile"
    · have hnn : ¬ (e.2.name = nm) := fun h => hnm (h ▸ hc)
      rw [if_pos hc, decide_eq_false hnn, if_neg (by decide : ¬ (false = true))]
      exact ih acc
    · rw [if_neg hc]
      by_cases he : e.2.name = nm
      · rw [decide_eq_true he, if_pos (rfl : (true : Bool) = true), ih _,
          List.getLast?_cons]
        cases (rest.filter (fun x => decide (x.2.name = nm))).getLast? with
        | some x => rfl
        | none =>
          dsimp only
          rw [dlookup_dinsert, if_pos he.symm]
          rfl
      · rw [decide_eq_false he, if_neg (by decide : ¬ (false = true)), ih _]
        cases (rest.filter (fun x => decide (x.2.name = nm))).getLast? with
        | some x => rfl
        | none =>
          dsimp only
          rw [dlookup_dinsert, if_neg (fun h => he h.symm)]

/-- The dict comprehension never creates a duplicate key. -/
theorem resolved_fold_nodup (setEnum : List Str → List Str) (pm : PM) (pkgs : PkgMap) :
    ∀ (l : List (Int × Package)) (acc : List (Str × DepEntry)), NodupKeys acc →
      NodupKeys (l.foldl (fun acc e =>
        if e.2.name = str "conanfile" then acc
        else dinsert acc e.2.name
          (make_dependency setEnum e.2 (childPackages pm pkgs e.1))) acc) := by
  intro l
  induction l with
  | nil => intro acc h; exact h
  | cons e rest ih =>
    intro acc h
    rw [List.foldl_cons]
    by_cases hc : e.2.name = str "conanfile"
    · rw [if_pos hc]; exact ih acc h
    · rw [if_neg hc]; exact ih _ (nodupKeys_dinsert _ _ h)

/-- The conanfile pseudo-record never reaches the resolved map. -/
theorem resolved_fold_no_conanfile (setEnum : List Str → List Str) (pm : PM) (pkgs : PkgMap) :
    ∀ (l : List (Int × Package)) (acc : List (Str × DepEntry)),
      dlookup acc (str "conanfile") = none →
      dlookup (l.foldl (fun acc e =>
        if e.2.name = str "conanfile" then acc
        else dinsert acc e.2.name
          (make_dependency setEnum e.2 (childPackages pm pkgs e.1))) acc) (str "conanfile")
        = none := by
  intro l
  induction l with
  | nil => intro acc h; exact h
  | cons e rest ih =>
    intro acc h
    rw [List.foldl_cons]
    by_cases hc : e.2.name = str "conanfile"
    · rw [if_pos hc]; exact ih acc h
    · rw [if_neg hc]
      refine ih _ ?_
      rw [dlookup_dinsert, if_neg (fun hh => hc hh.symm)]
      exact h

/-- Claim C10.  The `resolved` map is keyed by package name alone: it has
one entry per name, the entry for a name is the encoding of the last
package with that name in iteration order (earlier same-named packages are
silently overwritten), and packages named `conanfile` are excluded no
matter their id. -/
theorem claim_C10 (setEnum : List Str → List Str) (pm : PM) (pkgs : PkgMap) :
    NodupKeys (resolvedOf setEnum pm pkgs) ∧
    dlookup (resolvedOf setEnum pm pkgs) (str "conanfile") = none ∧
    ∀ nm, nm ≠ str "conanfile" →
      dlookup (resolvedOf setEnum pm pkgs) nm =
        ((pkgs.filter (fun e => decide (e.2.name = nm))).getLast?).map
          (fun e => make_dependency setEnum e.2 (childPackages pm pkgs e.1)) := by
  refine ⟨resolved_fold_nodup setEnum pm pkgs pkgs [] List.nodup_nil,
          resolved_fold_no_conanfile setEnum pm pkgs pkgs [] rfl, ?_⟩
  intro nm hnm
  rw [resolvedOf, resolved_fold_lookup setEnum pm pkgs nm hnm pkgs []]
  cases (pkgs.filter (fun e => decide (e.2.name = nm))).getLast? with
  | some e => rfl
  | none => rfl

/-- Claim C10, witness: with two records named `x` (versions 1.0 and 2.0),
the resolved map holds exactly the encoding of the later one. -/
theorem claim_C10_witness :
    dlookup (resolvedOf (fun l => l.dedup) [] pkgsDup) (str "x") =
      some (make_dependency (fun l => l.dedup)
        { mkPkg 2 (str "x") [] with version := some (str "2.0") }
        (childPackages [] pkgsDup 2)) := by
  rw [(claim_C10 (fun l => l.dedup) [] pkgsDup).2.2 (str "x") (by decide)]
  rfl

/-! ### sha/ref resolution and the detached-HEAD hard failure (claim C9) -/

/-- Any payload `submit_graph` emits carries the resolved sha and ref. -/
theorem submitGraph_ok_fields (i : SubmitIn) (p : Payload)
    (h : submitGraph i = .ok p) : p.sha = resolveSha i ∧ resolveRef i = some p.ref := by
  unfold submitGraph at h
  cases hr : resolveRef i with
  | none => rw [hr] at h; cases h
  | some rr =>
    rw [hr] at h
    dsimp only at h
    cases hpg : processGraph [] i.nodes with
    | error e => rw [hpg] at h; cases h
    | ok pkgs =>
      rw [hpg] at h
      dsimp only at h
      cases hbt : buildTree pkgs i.buildFuel [] .root 0 with
      | error e => rw [hbt] at h; cases h
      | ok pm =>
        rw [hbt] at h
        dsimp only at h
        cases ht : (i.envGithubToken).orElse (fun _ => i.envGhToken) with
        | none => rw [ht] at h; cases h
        | some tok =>
          rw [ht] at h
          dsimp only at h
          cases h
          exact ⟨rfl, rfl⟩

/-- Claim C9.  The payload's sha is the explicit `--sha` override when
provided, else `GITHUB_SHA`, else the repository's head commit; its ref is
`GITHUB_REF` when set, else `refs/heads/<branch>` from the checked-out
head; and when neither `GITHUB_REF` nor a current branch exists (detached
checkout), `submit_graph` reports the fatal error and returns without
assembling or submitting anything.  (The code offers no explicit ref
override, so the claim's override clause for the ref is vacuous.) -/
theorem claim_C9 (i : SubmitIn) :
    (∀ s p, i.shaOverride = some s → submitGraph i = .ok p → p.sha = s) ∧
    (∀ s p, i.shaOverride = none → i.envGithubSha = some s →
      submitGraph i = .ok p → p.sha = s) ∧
    (∀ p, i.shaOverride = none → i.envGithubSha = none →
      submitGraph i = .ok p → p.sha = i.headCommit) ∧
    (∀ r p, i.envGithubRef = some r → submitGraph i = .ok p → p.ref = r) ∧
    (∀ b p, i.envGithubRef = none → i.headRef = some b →
      submitGraph i = .ok p → p.ref = str "refs/heads/" ++ b) ∧
    (i.envGithubRef = none → i.headRef = none →
      submitGraph i = .error SubErr.noRef) := by
  refine ⟨?_, ?_, ?_, ?_, ?_, ?_⟩
  · intro s p hs h
    rw [(submitGraph_ok_fields i p h).1, resolveSha, hs]
    rfl
  · intro s p hs he h
    rw [(submitGraph_ok_fields i p h).1, resolveSha, hs, he]
    rfl
  · intro p hs he h
    rw [(submitGraph_ok_fields i p h).1, resolveSha, hs, he]
    rfl
  · intro r p hr h
    have h2 := (submitGraph_ok_fields i p h).2
    rw [resolveRef, hr] at h2
    exact (Option.some.inj h2).symm
  · intro b p hr hb h
    have h2 := (submitGraph_ok_fields i p h).2
    rw [resolveRef, hr, hb] at h2
    exact (Option.some.inj h2).symm
  · intro hr hb
    unfold submitGraph
    rw [show resolveRef i = none from by rw [resolveRef, hr, hb]; rfl]

/-- Claim C9, witness: on claim C1's run the sha comes from `GITHUB_SHA`
(no override), and on the detached variant with no `GITHUB_REF` the run
fails with the missing-ref error and produces no payload. -/
theorem claim_C9_witness :
    payloadC1.sha = str "envsha" ∧ submitGraph inDet = .error SubErr.noRef :=
  ⟨(claim_C9 inC1).2.1 (str "envsha") payloadC1 rfl rfl rfl,
   (claim_C9 inDet).2.2.2.2.2 rfl rfl⟩

/-! ### Separator-free refs (claim C8) -/

/-- Ref splitting without a `/`: the whole ref is the name, version and
revision are null, and no error is raised. -/
theorem refSplit_plain {r : Str} (h : hasChar r '/' = false) :
    refSplit r = .ok (r, none, none) := by
  unfold refSplit
  rw [h]
  rfl

/-- A well-formed `settings`/`options` field never makes the flattening
raise. -/
theorem flattenMaybe_ok {entry : List (Str × JVal)} {key : Str}
    (h : IsObjOrAbsent entry key) (m : List (Str × JVal)) :
    ∃ m', flattenMaybe entry key m = .ok m' := by
  cases hv : dlookup entry key with
  | none => exact ⟨m, by unfold flattenMaybe; rw [hv]⟩
  | some v =>
    rcases h v hv with ⟨fs, rfl⟩
    exact ⟨copyNonNull m fs, by unfold flattenMaybe; rw [hv]⟩

/-- Claim C8.  A graph node whose `ref` contains neither `/` nor `#` (and
whose other fields are well formed) parses without an error into a record
whose name is the whole ref and whose version and revision are both null,
and the loop then moves on to the remaining (sibling) nodes. -/
theorem claim_C8 (idx : Str) (entry : List (Str × JVal)) (m : PkgMap)
    (idv : JVal) (n ix : Int) (r : Str)
    (hid : dlookup entry (str "id") = some idv)
    (hidn : intParse idv = .ok n)
    (href : dlookup entry (str "ref") = some (JVal.s r))
    (hslash : hasChar r '/' = false)
    (hhash : hasChar r '#' = false)
    (hsett : IsObjOrAbsent entry (str "settings"))
    (hopts : IsObjOrAbsent entry (str "options"))
    (hdeps : ∃ ds, depIndexes entry = .ok ds)
    (hix : strToInt idx = .ok ix) :
    ∃ pkg : Package,
      processEntry entry = .ok (some pkg) ∧
      pkg.name = r ∧ pkg.version = none ∧ pkg.sha = none ∧
      processOne m (idx, JVal.obj entry) = .ok (dinsert m ix pkg) ∧
      ∀ rest, processGraph m ((idx, JVal.obj entry) :: rest) =
        processGraph (dinsert m ix pkg) rest := by
  rcases hdeps with ⟨ds, hds⟩
  rcases flattenMaybe_ok hsett [] with ⟨m1, hm1⟩
  rcases flattenMaybe_ok hopts m1 with ⟨m2, hm2⟩
  have hpe : processEntry entry =
      .ok (some ⟨n, r, none, none, scopeOf (copyScalars m2 entry), none,
                 copyScalars m2 entry, ds⟩) := by
    unfold processEntry
    rw [hid]
    dsimp only
    rw [hidn]
    dsimp only [bind, Except.bind]
    rw [href]
    dsimp only
    rw [refSplit_plain hslash]
    dsimp only [bind, Except.bind]
    rw [hm1]
    dsimp only [bind, Except.bind]
    rw [hm2]
    dsimp only [bind, Except.bind]
    rw [hds]
    rfl
  have hpo : processOne m (idx, JVal.obj entry) =
      .ok (dinsert m ix ⟨n, r, none, none, scopeOf (copyScalars m2 entry), none,
                        copyScalars m2 entry, ds⟩) := by
    unfold processOne
    dsimp only
    rw [hpe]
    dsimp only
    rw [hix]
  refine ⟨_, hpe, rfl, rfl, rfl, hpo, ?_⟩
  intro rest
  rw [processGraph, hpo]

/-- Claim C8, witness: the node `{"id": 1, "ref": "libX"}` parses to a
record named `libX` with null version and revision, and the loop moves on. -/
theorem claim_C8_witness :
    ∃ pkg : Package,
      processEntry entryC8 = .ok (some pkg) ∧
      pkg.name = str "libX" ∧ pkg.version = none ∧ pkg.sha = none ∧
      processOne [] (str "1", JVal.obj entryC8) = .ok (dinsert [] 1 pkg) ∧
      ∀ rest, processGraph [] ((str "1", JVal.obj entryC8) :: rest) =
        processGraph (dinsert [] 1 pkg) rest :=
  claim_C8 (str "1") entryC8 [] (JVal.i 1) 1 1 (str "libX") rfl rfl rfl rfl rfl
    (fun v h => by
      rw [show dlookup entryC8 (str "settings") = none from rfl] at h
      cases h)
    (fun v h => by
      rw [show dlookup entryC8 (str "options") = none from rfl] at h
      cases h)
    ⟨[], rfl⟩ rfl

/-! ### Determinism across runs (claim C4) -/

/-- Keeping the first occurrence of each element is a valid `list(set(…))`
enumeration. -/
theorem isSetEnum_dedup : IsSetEnum (fun l => l.dedup) :=
  fun l => ⟨List.nodup_dedup l, fun _ => List.mem_dedup⟩

/-- So is its reversal (a different but equally possible set order). -/
theorem isSetEnum_dedup_reverse : IsSetEnum (fun l => l.dedup.reverse) :=
  fun l => ⟨List.nodup_reverse.mpr (List.nodup_dedup l),
    fun _ => List.mem_reverse.trans List.mem_dedup⟩

/-- Similar resolved maps have identical key sequences. -/
theorem resolvedSim_keys {r1 r2 : List (Str × DepEntry)} (h : ResolvedSim r1 r2) :
    r1.map (·.1) = r2.map (·.1) := by
  induction h with
  | nil => rfl
  | cons hab _ ih => rw [List.map_cons, List.map_cons, hab.1, ih]

/-- Overwriting the entry at a key preserves similarity. -/
theorem resolvedSim_map_overwrite {r1 r2 : List (Str × DepEntry)} (h : ResolvedSim r1 r2)
    (k : Str) {d1 d2 : DepEntry} (hd : DepSim d1 d2) :
    ResolvedSim (r1.map (fun p => if p.1 = k then (k, d1) else p))
                (r2.map (fun p => if p.1 = k then (k, d2) else p)) := by
  induction h with
  | nil => exact List.Forall₂.nil
  | @cons a b l1 l2 hab hrest ih =>
    rw [List.map_cons, List.map_cons]
    refine List.Forall₂.cons ?_ ih
    by_cases hk : a.1 = k
    · rw [if_pos hk, if_pos (hab.1.symm.trans hk)]
      exact ⟨rfl, hd⟩
    · rw [if_neg hk, if_neg (fun hh => hk (hab.1.trans hh))]
      exact hab

/-- A dict assignment with similar values preserves similarity of the
whole map. -/
theorem resolvedSim_dinsert {r1 r2 : List (Str × DepEntry)} (h : ResolvedSim r1 r2)
    (k : Str) {d1 d2 : DepEntry} (hd : DepSim d1 d2) :
    ResolvedSim (dinsert r1 k d1) (dinsert r2 k d2) := by
  have hkeys := resolvedSim_keys h
  have hany : (r1.any (fun p => decide (p.1 = k))) = (r2.any (fun p => decide (p.1 = k))) := by
    have h1 : ∀ (l : List (Str × DepEntry)),
        l.any (fun p => decide (p.1 = k)) = (l.map (·.1)).any (fun x => decide (x = k)) := by
      intro l
      induction l with
      | nil => rfl
      | cons a t ih => rw [List.map_cons, List.any_cons, List.any_cons, ih]
    rw [h1 r1, h1 r2, hkeys]
  unfold dinsert
  rw [hany]
  by_cases h2 : r2.any (fun p => decide (p.1 = k)) = true
  · rw [if_pos h2, if_pos h2]
    exact resolvedSim_map_overwrite h k hd
  · rw [if_neg h2, if_neg h2]
    exact List.rel_append h (List.Forall₂.cons ⟨rfl, hd⟩ List.Forall₂.nil)

/-- Two valid set enumerations give the same entry up to the order of its
dependencies list. -/
theorem depSim_make_dependency {e1 e2 : List Str → List Str}
    (h1 : IsSetEnum e1) (h2 : IsSetEnum e2) (p : Package) (cs : List Package) :
    DepSim (make_dependency e1 p cs) (make_dependency e2 p cs) := by
  refine ⟨rfl, ?_, rfl, rfl, rfl⟩
  rcases h1 (cs.map (fun c => make_purl c true)) with ⟨hn1, hm1⟩
  rcases h2 (cs.map (fun c => make_purl c true)) with ⟨hn2, hm2⟩
  exact (List.perm_ext_iff_of_nodup hn1 hn2).mpr (fun x => (hm1 x).trans (hm2 x).symm)

/-- The whole resolved map is similar across valid set enumerations. -/
theorem resolvedSim_resolvedOf {e1 e2 : List Str → List Str}
    (h1 : IsSetEnum e1) (h2 : IsSetEnum e2) (pm : PM) (pkgs : PkgMap) :
    ResolvedSim (resolvedOf e1 pm pkgs) (resolvedOf e2 pm pkgs) := by
  unfold resolvedOf
  suffices h : ∀ (l : List (Int × Package)) (acc1 acc2 : List (Str × DepEntry)),
      ResolvedSim acc1 acc2 →
      ResolvedSim
        (l.foldl (fun acc e => if e.2.name = str "conanfile" then acc
          else dinsert acc e.2.name (make_dependency e1 e.2 (childPackages pm pkgs e.1))) acc1)
        (l.foldl (fun acc e => if e.2.name = str "conanfile" then acc
          else dinsert acc e.2.name (make_dependency e2 e.2 (childPackages pm pkgs e.1))) acc2)
    from h pkgs [] [] List.Forall₂.nil
  intro l
  induction l with
  | nil => intro acc1 acc2 h; exact h
  | cons e rest ih =>
    intro acc1 acc2 h
    rw [List.foldl_cons, List.foldl_cons]
    by_cases hcf : e.2.name = str "conanfile"
    · rw [if_pos hcf, if_pos hcf]
      exact ih _ _ h
    · rw [if_neg hcf, if_neg hcf]
      exact ih _ _ (resolvedSim_dinsert h _ (depSim_make_dependency h1 h2 _ _))

/-- Claim C4, amended.  Two runs of the pipeline on the same graph and
environment produce the same error, or payloads that agree on every field
except the freshly generated job id, the scanned timestamp, and the order
inside each entry's dependencies list: that order comes from iterating a
Python set of strings, whose order depends on the interpreter's hash seed,
so it is not stable across runs — but the lists hold the same identifiers
(they are permutations of each other), and the resolved keys appear in the
same order. -/
theorem claim_C4 (sha envS envR envT envT2 : Option Str) (hc : Str) (hr : Option Str)
    (nodes : List (Str × JVal)) (cv : Option Str) (cn crp : Str) (fuel : Nat)
    (j1 s1 j2 s2 : Str) (e1 e2 : List Str → List Str)
    (h1 : IsSetEnum e1) (h2 : IsSetEnum e2) :
    (∀ er,
      submitGraph ⟨sha, envS, envR, envT, envT2, hc, hr, nodes, cv, cn, crp, j1, s1, fuel, e1⟩
        = .error er ↔
      submitGraph ⟨sha, envS, envR, envT, envT2, hc, hr, nodes, cv, cn, crp, j2, s2, fuel, e2⟩
        = .error er) ∧
    (∀ p1 p2,
      submitGraph ⟨sha, envS, envR, envT, envT2, hc, hr, nodes, cv, cn, crp, j1, s1, fuel, e1⟩
        = .ok p1 →
      submitGraph ⟨sha, envS, envR, envT, envT2, hc, hr, nodes, cv, cn, crp, j2, s2, fuel, e2⟩
        = .ok p2 →
      PayloadSim p1 p2) := by
  unfold submitGraph resolveSha resolveRef
  dsimp only
  cases hrr : envR.orElse (fun _ => hr.map (fun b => str "refs/heads/" ++ b)) with
  | none =>
    refine ⟨fun er => Iff.rfl, fun p1 p2 hp1 _ => ?_⟩
    cases hp1
  | some rr =>
    dsimp only
    cases hpg : processGraph [] nodes with
    | error e =>
      refine ⟨fun er => Iff.rfl, fun p1 p2 hp1 _ => ?_⟩
      cases hp1
    | ok pkgs =>
      dsimp only
      cases hbt : buildTree pkgs fuel [] .root 0 with
      | error e =>
        refine ⟨fun er => Iff.rfl, fun p1 p2 hp1 _ => ?_⟩
        cases hp1
      | ok pm =>
        dsimp only
        cases ht : envT.orElse (fun _ => envT2) with
        | none =>
          refine ⟨fun er => Iff.rfl, fun p1 p2 hp1 _ => ?_⟩
          cases hp1
        | some tok =>
          dsimp only
          refine ⟨fun er => ⟨fun h => Except.noConfusion h, fun h => Except.noConfusion h⟩, ?_⟩
          intro p1 p2 hp1 hp2
          cases hp1
          cases hp2
          exact ⟨rfl, rfl, rfl, rfl, rfl, rfl, rfl, rfl, rfl,
            resolvedSim_resolvedOf h1 h2 pm (addRelationship pm pkgs)⟩

/-- Claim C4, witness: with both set orders instantiated to first
occurrence, the two runs over the empty graph produce (the same) payload,
similar to itself. -/
theorem claim_C4_witness : PayloadSim payloadW payloadW :=
  (claim_C4 none (some (str "s")) (some (str "r")) (some (str "t")) none
    (str "h") none [] none (str "cf") (str "cf") 1 (str "j") (str "t0")
    (str "j") (str "t0") (fun l => l.dedup) (fun l => l.dedup)
    isSetEnum_dedup isSetEnum_dedup).2 payloadW payloadW rfl rfl

/-- Claim C4, counterexample.  Two runs with the identical graph and
identical environment — even with the same job id and timestamp — are not
byte-identical: `libA`'s dependencies list is built from a Python set, and
under a different (equally valid) set order the list comes out reversed,
so the payloads differ beyond the two fresh fields. -/
theorem claim_C4_counterexample :
    IsSetEnum inC4A.setEnum ∧ IsSetEnum inC4B.setEnum ∧
    jobIdOf (submitGraph inC4A) = jobIdOf (submitGraph inC4B) ∧
    scannedOf (submitGraph inC4A) = scannedOf (submitGraph inC4B) ∧
    resolvedDeps (submitGraph inC4A) (str "libA") =
      some [str "pkg:conan/libB@1.1", str "pkg:conan/libC@2.2"] ∧
    resolvedDeps (submitGraph inC4B) (str "libA") =
      some [str "pkg:conan/libC@2.2", str "pkg:conan/libB@1.1"] ∧
    submitGraph inC4A ≠ submitGraph inC4B := by
  have hA : resolvedDeps (submitGraph inC4A) (str "libA") =
      some [str "pkg:conan/libB@1.1", str "pkg:conan/libC@2.2"] := rfl
  have hB : resolvedDeps (submitGraph inC4B) (str "libA") =
      some [str "pkg:conan/libC@2.2", str "pkg:conan/libB@1.1"] := rfl
  refine ⟨isSetEnum_dedup, isSetEnum_dedup_reverse, rfl, rfl, hA, hB, fun h => ?_⟩
  rw [h] at hA
  exact absurd (hA.symm.trans hB) (by decide)

/-! ### Purl round-trip (claim C5) -/

theorem pctStr_cons (extra : Str) (c : Char) (s : Str) :
    pctStr extra (c :: s) = pctChar extra c ++ pctStr extra s := rfl

theorem pctStr_append (extra : Str) (a b : Str) :
    pctStr extra (a ++ b) = pctStr extra a ++ pctStr extra b := by
  induction a with
  | nil => rfl
  | cons c t ih => rw [List.cons_append, pctStr_cons, pctStr_cons, ih, List.append_assoc]

/-- Percent-encoding is the identity on strings of unreserved characters. -/
theorem pctStr_plain {s : Str} (extra : Str) (h : s.all plainChar = true) :
    pctStr extra s = s := by
  induction s with
  | nil => rfl
  | cons c t ih =>
    rw [List.all_cons, Bool.and_eq_true] at h
    have hc : (alwaysSafe c || hasChar extra c) = true := by
      rw [Bool.or_eq_true]
      exact Or.inl h.1
    rw [pctStr_cons]
    unfold pctChar
    rw [hc, if_pos rfl, ih h.2]
    rfl

theorem hasChar_cons (c : Char) (t : Str) (x : Char) :
    hasChar (c :: t) x = (decide (c = x) || hasChar t x) := rfl

theorem hasChar_append (a b : Str) (c : Char) :
    hasChar (a ++ b) c = (hasChar a c || hasChar b c) := by
  induction a with
  | nil => rfl
  | cons x t ih => rw [List.cons_append, hasChar_cons, hasChar_cons, ih, Bool.or_assoc]

/-- A string of unreserved characters contains no reserved character. -/
theorem not_hasChar_plain {s : Str} (h : s.all plainChar = true) {c : Char}
    (hc : plainChar c = false) : hasChar s c = false := by
  rw [Bool.eq_false_iff]
  intro hh
  rcases List.any_eq_true.mp hh with ⟨x, hx, hxc⟩
  have hxc' : x = c := of_decide_eq_true hxc
  subst hxc'
  have hall := List.all_eq_true.mp h x hx
  rw [hc] at hall
  exact Bool.noConfusion hall

theorem splitAtFirst_not_mem (sep : Char) {s : Str} (h : hasChar s sep = false) :
    splitAtFirst sep s = (s, none) := by
  induction s with
  | nil => rfl
  | cons c t ih =>
    rw [hasChar_cons, Bool.or_eq_false_iff] at h
    rw [splitAtFirst, if_neg (of_decide_eq_false h.1), ih h.2]

theorem splitAtFirst_hit (sep : Char) {a : Str} (b : Str) (h : hasChar a sep = false) :
    splitAtFirst sep (a ++ sep :: b) = (a, some b) := by
  induction a with
  | nil => rw [List.nil_append, splitAtFirst, if_pos rfl]
  | cons c t ih =>
    rw [hasChar_cons, Bool.or_eq_false_iff] at h
    rw [List.cons_append, splitAtFirst, if_neg (of_decide_eq_false h.1), ih h.2]

theorem dropStart_append : ∀ (p s : Str), dropStart p (p ++ s) = some s := by
  intro p
  induction p with
  | nil => intro s; rfl
  | cons c t ih =>
    intro s
    rw [List.cons_append, dropStart, if_pos rfl, ih]

/-- Claim C5, amended.  For every record whose version is non-null and
whose name and version consist of unreserved characters (alphanumerics and
`_ . - ~` — in particular no `@`, which the parser can produce inside a
name), decoding the canonical package identifier's non-metadata portion
recovers the record's name and version exactly. -/
theorem claim_C5 (p : Package) (v : Str)
    (hv : p.version = some v)
    (hn : p.name.all plainChar = true)
    (hvp : v.all plainChar = true) :
    decodePurl (make_purl p false) = some (p.name, v) := by
  have hnq : hasChar p.name '?' = false := not_hasChar_plain hn rfl
  have hvq : hasChar v '?' = false := not_hasChar_plain hvp rfl
  have hna : hasChar p.name '@' = false := not_hasChar_plain hn rfl
  have hver : versionField p = v := by rw [versionField, hv]
  have hseg : pctStr pathSafeExtra (p.name ++ ['@'] ++ versionField p) = p.name ++ '@' :: v := by
    rw [hver, List.append_assoc, pctStr_append, pctStr_plain _ hn,
      List.singleton_append, pctStr_cons, pctStr_plain _ hvp]
    rfl
  have hbq : hasChar (str "pkg:conan/" ++ (p.name ++ '@' :: v)) '?' = false := by
    rw [hasChar_append, hasChar_append, hasChar_cons, hnq, hvq]
    rfl
  unfold make_purl
  dsimp only
  rw [hseg]
  cases hq : purlQuery p.metadata with
  | nil =>
    dsimp only
    show decodePurl (str "pkg:conan/" ++ (p.name ++ '@' :: v)) = some (p.name, v)
    unfold decodePurl
    rw [splitAtFirst_not_mem '?' hbq]
    dsimp only
    rw [dropStart_append]
    dsimp only
    rw [splitAtFirst_hit '@' v hna]
  | cons qh qt =>
    dsimp only
    show decodePurl ((str "pkg:conan/" ++ (p.name ++ '@' :: v)) ++ ['?']
        ++ queryString (qh :: qt)) = some (p.name, v)
    unfold decodePurl
    rw [List.append_assoc, List.singleton_append,
      splitAtFirst_hit '?' (queryString (qh :: qt)) hbq]
    dsimp only
    rw [dropStart_append]
    dsimp only
    rw [splitAtFirst_hit '@' v hna]

/-- Claim C5, witness: a record named `libA` at version `1.2` (unreserved
characters only) round-trips exactly. -/
theorem claim_C5_witness : decodePurl (make_purl pkgPlain false) = some (str "libA", str "1.2") :=
  claim_C5 pkgPlain (str "1.2") rfl (by decide) (by decide)

/-- Claim C5, counterexample.  The parser produces names containing `@`
(node ref `a@b/1.0` parses to name `a@b`, version `1.0`), and for such a
record the encoded path is `conan/a@b@1.0`, whose decoding cannot tell the
name-version boundary apart: it recovers `(a, b@1.0)`, not the record's
`(a@b, 1.0)`, so the round-trip fails for names the parser can produce. -/
theorem claim_C5_counterexample :
    processGraph [] [nodeAtB] = .ok [(1, pkgAtB)] ∧
    pkgAtB.name = str "a@b" ∧ pkgAtB.version = some (str "1.0") ∧
    decodePurl (make_purl pkgAtB false) = some (str "a", str "b@1.0") ∧
    decodePurl (make_purl pkgAtB false) ≠ some (str "a@b", str "1.0") :=
  ⟨rfl, rfl, rfl, rfl, by decide⟩

end ConanSubmit
